import Mathlib

/-!
Verification development for the Marketing-Intelligence repository
(src/app.py, src/test.py).

The pipeline is embedded shallowly:

* numeric cells are exact rationals; a pandas float cell that can be
  NaN or infinite is modelled by `PVal` (NaN arises from
  `.replace(0, np.nan)` and from missing left-join matches, infinities
  from bare division by zero);
* a DataFrame is a list of records (structures below);
* `groupby(key).agg(sum)` followed by ratio columns is `aggregateWith`;
* `pd.merge(business, daily, on="date", how="left")` is `mergeBD`
  (the right side is date-keyed, i.e. has unique keys, as the output
  of a groupby — see `dailyMarketing_keys_nodup`);
* `pd.to_datetime(..., errors="coerce")` + `dropna` is `combinedClean`,
  parameterised by an abstract parse function;
* the float mean / std (ddof = 1) of the spend column are modelled by
  exact rational `sMean` / `sVar`, with `sVar = none` when pandas would
  produce NaN (fewer than two rows); the detector's comparisons against
  `mean ± k*std` are implemented by the decidable squared forms
  `outUpper` / `outLower` and proved equivalent to the real-number
  band (`outUpper_iff`, `outLower_iff`).
-/

namespace MI

/-- A pandas float cell: a finite rational, NaN, or a signed infinity. -/
inductive PVal where
  | num : ℚ → PVal
  | nan : PVal
  | inf : PVal
  | neginf : PVal
deriving DecidableEq, Repr

/-- Float division as numpy/pandas performs it on the cells this pipeline
produces (finite numerators and denominators, or NaN propagated from
`.replace(0, np.nan)` / missing join matches): `a / 0` is `+inf` for
`a > 0`, `-inf` for `a < 0`, NaN for `0 / 0`; NaN propagates. Infinite
operands never reach a division in the pipeline, so they also map to NaN. -/
def pdiv : PVal → PVal → PVal
  | PVal.num a, PVal.num b =>
      if b = 0 then
        (if 0 < a then PVal.inf else if a < 0 then PVal.neginf else PVal.nan)
      else PVal.num (a / b)
  | _, _ => PVal.nan

/-- `series.replace(0, np.nan)` on a single cell. -/
def replaceZero (q : ℚ) : PVal := if q = 0 then PVal.nan else PVal.num q

/-- Bare column division, e.g. `channel_stats["clicks"] / channel_stats["impression"]`
(src/app.py lines 189-191, src/test.py lines 30-32 and all summary ratios). -/
def pdivQ (a b : ℚ) : PVal := pdiv (PVal.num a) (PVal.num b)

/-- Null-safe division `x / y.replace(0, np.nan)` used in `load_data`
(src/app.py lines 37-39, 54-56, 62-63). -/
def pdivSafeQ (a b : ℚ) : PVal := pdiv (PVal.num a) (replaceZero b)

/-- Pandas `<` on float cells: comparisons involving NaN are false,
`-inf < x` and `x < +inf` for finite `x`. -/
def pvalLt : PVal → PVal → Bool
  | PVal.num a, PVal.num b => decide (a < b)
  | PVal.neginf, PVal.num _ => true
  | PVal.num _, PVal.inf => true
  | PVal.neginf, PVal.inf => true
  | _, _ => false

/-- Pandas `Series.mean()` with its default `skipna=True`: the mean of the
finite entries, NaN when none remain.  (The columns it is applied to in the
pipeline contain only finite values and NaNs, never infinities.) -/
def pmean (l : List PVal) : PVal :=
  let ns := l.filterMap (fun v => match v with | PVal.num q => some q | _ => none)
  if ns.isEmpty then PVal.nan else PVal.num (ns.sum / (ns.length : ℚ))

/-- One row of the unified marketing record set (`all_marketing` /
`all_data`): cleaned columns of a channel CSV plus the added `channel` tag. -/
structure MRow where
  date : String
  campaign : String
  channel : String
  impression : ℚ
  clicks : ℚ
  spend : ℚ
  attributed_revenue : ℚ
deriving DecidableEq, Repr

/-- Record-level `ctr` column of `load_data` (src/app.py line 37). -/
def ctrApp (r : MRow) : PVal := pdivSafeQ r.clicks r.impression

/-- Record-level `cpc` column of `load_data` (src/app.py line 38). -/
def cpcApp (r : MRow) : PVal := pdivSafeQ r.spend r.clicks

/-- Record-level `roas` column of `load_data` (src/app.py line 39). -/
def roasApp (r : MRow) : PVal := pdivSafeQ r.attributed_revenue r.spend

/-- Record-level `cpc` column of src/test.py line 30 (bare division). -/
def cpcTest (r : MRow) : PVal := pdivQ r.spend r.clicks

/-- Record-level `ctr` column of src/test.py line 31 (bare division). -/
def ctrTest (r : MRow) : PVal := pdivQ r.clicks r.impression

/-- Record-level `roas` column of src/test.py line 32 (bare division). -/
def roasTest (r : MRow) : PVal := pdivQ r.attributed_revenue r.spend

/-- Sum of a numeric column over a list of rows. -/
def sumOver (f : MRow → ℚ) (l : List MRow) : ℚ := (l.map f).sum

/-- The distinct values of a key column in order of first occurrence.
(pandas `groupby` sorts the keys instead; every claim settled here is
independent of partition order.) -/
def uniqueKeys (key : MRow → String) : List MRow → List String
  | [] => []
  | r :: rs => key r :: (uniqueKeys key rs).filter (fun k => k != key r)

/-- The rows of one partition: the group of rows whose key equals `k`. -/
def part (key : MRow → String) (l : List MRow) (k : String) : List MRow :=
  l.filter (fun r => key r == k)

/-- One output row of `groupby(key).agg({... "sum"})` with the three ratio
columns recomputed from the summed base quantities by the division policy
`dv` (`pdivQ` for the bare divisions, `pdivSafeQ` for `load_data`'s
null-safe ones). -/
structure AggR where
  key : String
  impression : ℚ
  clicks : ℚ
  spend : ℚ
  attributed_revenue : ℚ
  ctr : PVal
  cpc : PVal
  roas : PVal
deriving DecidableEq, Repr

/-- The aggregate row for one key value. -/
def mkAggWith (dv : ℚ → ℚ → PVal) (key : MRow → String) (l : List MRow)
    (k : String) : AggR :=
  { key := k
    impression := sumOver (fun r => r.impression) (part key l k)
    clicks := sumOver (fun r => r.clicks) (part key l k)
    spend := sumOver (fun r => r.spend) (part key l k)
    attributed_revenue := sumOver (fun r => r.attributed_revenue) (part key l k)
    ctr := dv (sumOver (fun r => r.clicks) (part key l k))
             (sumOver (fun r => r.impression) (part key l k))
    cpc := dv (sumOver (fun r => r.spend) (part key l k))
             (sumOver (fun r => r.clicks) (part key l k))
    roas := dv (sumOver (fun r => r.attributed_revenue) (part key l k))
             (sumOver (fun r => r.spend) (part key l k)) }

/-- `groupby(key).agg(sum)` + ratio columns: one `AggR` per distinct key. -/
def aggregateWith (dv : ℚ → ℚ → PVal) (key : MRow → String)
    (l : List MRow) : List AggR :=
  (uniqueKeys key l).map (mkAggWith dv key l)

/-- `channel_stats` (src/app.py lines 182-191); identical in shape to
`channel_summary` (src/test.py lines 78-89).  The ratio columns divide the
summed bases directly, with no zero-replacement. -/
def channelStats (l : List MRow) : List AggR :=
  aggregateWith pdivQ (fun r => r.channel) l

/-- `campaign_stats` (src/app.py lines 247-255) / `campaign_summary`
(src/test.py lines 40-51): grouped by the `campaign` column alone.
(app.py computes only the roas and ctr ratio columns; the cpc field here
additionally models test.py's `campaign_summary["cpc"]`.) -/
def campaignStats (l : List MRow) : List AggR :=
  aggregateWith pdivQ (fun r => r.campaign) l

/-- `daily_marketing` built inside `load_data` (src/app.py lines 46-56):
grouped by date, ratio columns null-safe (`.replace(0, np.nan)`).
The ctr/cpc/roas fields are the `daily_ctr`/`daily_cpc`/`daily_roas`
columns. -/
def dailyMarketing (l : List MRow) : List AggR :=
  aggregateWith pdivSafeQ (fun r => r.date) l

/-- `daily_summary` (src/test.py lines 59-70): grouped by date, ratio
columns by bare division. -/
def dailySummary (l : List MRow) : List AggR :=
  aggregateWith pdivQ (fun r => r.date) l

/-- Sum of a numeric column over aggregate rows. -/
def aggSum (f : AggR → ℚ) (l : List AggR) : ℚ := (l.map f).sum

/-- One row of `Business.csv` after `clean_columns`. -/
structure BRow where
  date : String
  total_revenue : ℚ
  gross_profit : ℚ
deriving DecidableEq, Repr

/-- A float cell read back from an optional (possibly unmatched) column:
NaN when the left join produced no match. -/
def optQ : Option ℚ → PVal
  | some q => PVal.num q
  | none => PVal.nan

/-- A PVal cell read back from an optional column. -/
def optPV : Option PVal → PVal
  | some v => v
  | none => PVal.nan

/-- One row of `combined` (src/app.py lines 59-63, src/test.py lines
104-109): the business row with the marketing columns of the matching
daily aggregate, `none`/NaN when the date has no marketing match.
The field `marketing_spend_pct` carries test.py's name; the same column
is `marketing_spend_ratio` in app.py. -/
structure CRow where
  date : String
  total_revenue : ℚ
  gross_profit : ℚ
  impression : Option ℚ
  clicks : Option ℚ
  spend : Option ℚ
  attributed_revenue : Option ℚ
  daily_ctr : PVal
  daily_cpc : PVal
  daily_roas : PVal
  marketing_revenue_share : PVal
  marketing_spend_pct : PVal
deriving DecidableEq, Repr

/-- The combined row for one business row, given the daily marketing
aggregate matched to its date (or `none`).  The two post-join ratios are
`attributed_revenue / total_revenue.replace(0, nan)` and
`spend / total_revenue.replace(0, nan)` (src/app.py lines 62-63). -/
def combineRow (b : BRow) (od : Option AggR) : CRow :=
  { date := b.date
    total_revenue := b.total_revenue
    gross_profit := b.gross_profit
    impression := od.map (fun d => d.impression)
    clicks := od.map (fun d => d.clicks)
    spend := od.map (fun d => d.spend)
    attributed_revenue := od.map (fun d => d.attributed_revenue)
    daily_ctr := optPV (od.map (fun d => d.ctr))
    daily_cpc := optPV (od.map (fun d => d.cpc))
    daily_roas := optPV (od.map (fun d => d.roas))
    marketing_revenue_share :=
      pdiv (optQ (od.map (fun d => d.attributed_revenue))) (replaceZero b.total_revenue)
    marketing_spend_pct :=
      pdiv (optQ (od.map (fun d => d.spend))) (replaceZero b.total_revenue) }

/-- `pd.merge(business, daily_marketing, on="date", how="left")`
(src/app.py line 59, src/test.py line 104).  The right side is the output
of a `groupby("date")`, so its keys are unique and each business row
matches at most one daily row; `find?` picks it. -/
def mergeBD (business : List BRow) (daily : List AggR) : List CRow :=
  business.map (fun b => combineRow b (daily.find? (fun d => d.key == b.date)))

/-- Sum of an optional column skipping the missing cells, as pandas
`Series.sum()` skips NaN. -/
def sumOptQ (l : List (Option ℚ)) : ℚ := (l.filterMap id).sum

/-- KPI `total_spend = filtered["spend"].sum()` (src/app.py line 122). -/
def totalSpendKpi (rows : List CRow) : ℚ := sumOptQ (rows.map (fun c => c.spend))

/-- KPI `total_attributed_revenue = filtered["attributed_revenue"].sum()`
(src/app.py line 124). -/
def totalAttrKpi (rows : List CRow) : ℚ :=
  sumOptQ (rows.map (fun c => c.attributed_revenue))

/-- KPI `avg_roas = filtered["daily_roas"].mean()` (src/app.py line 125):
the arithmetic mean of the row-level daily roas values. -/
def avgRoas (rows : List CRow) : PVal := pmean (rows.map (fun c => c.daily_roas))

/-- A combined row paired with the result of
`pd.to_datetime(combined["date"], errors="coerce")` (src/app.py line 75),
for an abstract date parser returning `none` on unparseable text. -/
structure PRow where
  pdate : Option ℕ
  row : CRow
deriving DecidableEq, Repr

/-- The date-coercion step (src/app.py line 75). -/
def coerceDates (parse : String → Option ℕ) (rows : List CRow) : List PRow :=
  rows.map (fun r => { pdate := parse r.date, row := r })

/-- `combined.dropna(subset=["date"])` (src/app.py line 76). -/
def dropUnparsed (rows : List PRow) : List PRow :=
  rows.filter (fun p => p.pdate.isSome)

/-- The combined record set actually handed to filtering, KPIs and display:
dates coerced, unparseable rows dropped (src/app.py lines 75-76). -/
def combinedClean (parse : String → Option ℕ) (rows : List CRow) : List PRow :=
  dropUnparsed (coerceDates parse rows)

/-- Sample mean of a column (pandas `Series.mean()`, exact arithmetic).
For the empty list this is `0/0 = 0` in ℚ; the detector never reads it
there because `sVar` is `none`. -/
def sMean (l : List ℚ) : ℚ := l.sum / (l.length : ℚ)

/-- Sample variance with the n-1 divisor (the square of pandas
`Series.std()`, whose default `ddof=1`); `none` models the NaN that
pandas produces for fewer than two values. -/
def sVar (l : List ℚ) : Option ℚ :=
  if l.length < 2 then none
  else some (((l.map (fun x => (x - sMean l) ^ 2)).sum) / ((l.length : ℚ) - 1))

/-- Sample standard deviation (pandas `Series.std()`, ddof=1) as a real.
Noncomputable because of `Real.sqrt`; it appears only in specification
statements — the executable detector compares squares instead
(`outUpper` / `outLower`), and the equivalence is proved below. -/
noncomputable def sStd (l : List ℚ) : ℝ := Real.sqrt (((sVar l).getD 0 : ℚ) : ℝ)

/-- Decidable form of `mean + k*std < s` with `k2 = k^2`: proved
equivalent to the real-number comparison in `outUpper_iff`. -/
def outUpper (k2 mu v s : ℚ) : Bool :=
  decide (mu < s) && decide (k2 * v < (s - mu) ^ 2)

/-- Decidable form of `s < max 0 (mean - k*std)` with `k2 = k^2`: proved
equivalent to the real-number comparison in `outLower_iff`. -/
def outLower (k2 mu v s : ℚ) : Bool :=
  decide (s < 0) || (decide (s < mu) && decide (k2 * v < (mu - s) ^ 2))

/-- Membership test of app.py's anomaly filter (src/app.py lines 343-351):
`spend > mean + 2.5*std or spend < max(0, mean - 2.5*std)`.  When the std
is NaN (fewer than two rows) the upper comparison `spend > NaN` is false,
but Python's built-in `max(0, nan)` returns its FIRST argument 0 (the
comparison `nan > 0` is false, so `max` keeps the running value), so
`lower_threshold = 0` and the lower check degenerates to `spend < 0`. -/
def anomB (spends : List ℚ) (s : ℚ) : Bool :=
  match sVar spends with
  | none => decide (s < 0)
  | some v => outUpper (25 / 4) (sMean spends) v s || outLower (25 / 4) (sMean spends) v s

/-- `anomalies` (src/app.py lines 348-351): the daily rows outside the
band.  The emitted rows are plain daily rows; no direction column is
added. -/
def anomalies (daily : List AggR) : List AggR :=
  daily.filter (fun r => anomB (daily.map (fun x => x.spend)) r.spend)

/-- Membership test of test.py's spike filter (src/test.py lines 256-260):
only `spend > mean + 3*std`; there is no lower-band check and hence no
clamped threshold, so with a NaN std (fewer than two rows) the comparison
`spend > NaN` is false and nothing is emitted. -/
def spikeB (spends : List ℚ) (s : ℚ) : Bool :=
  match sVar spends with
  | none => false
  | some v => outUpper 9 (sMean spends) v s

/-- `spikes` (src/test.py line 260). -/
def spikes (daily : List AggR) : List AggR :=
  daily.filter (fun r => spikeB (daily.map (fun x => x.spend)) r.spend)

/-- The three recommendation templates of src/test.py lines 270-290. -/
inductive RecKind where
  | pause
  | spike
  | scale
deriving DecidableEq, Repr

/-- One recommendation message, by the fields the template cites:
its kind, the campaign name or date, and the cited spend and roas. -/
structure Recommendation where
  kind : RecKind
  subject : String
  spend : ℚ
  roas : PVal
deriving DecidableEq, Repr

/-- `low_roas = campaign_summary[campaign_summary["roas"] < 0.5]`
(src/test.py line 250). -/
def lowRoas (cs : List AggR) : List AggR :=
  cs.filter (fun a => pvalLt a.roas (PVal.num (1 / 2)))

/-- The pause/review recommendations (src/test.py lines 273-276), one per
low-roas campaign, citing its name, roas and spend. -/
def pauseRecs (cs : List AggR) : List Recommendation :=
  (lowRoas cs).map (fun a => { kind := RecKind.pause, subject := a.key, spend := a.spend, roas := a.roas })

/-- The spend-spike recommendations (src/test.py lines 279-282). -/
def spikeRecs (ds : List AggR) : List Recommendation :=
  (spikes ds).map (fun a => { kind := RecKind.spike, subject := a.key, spend := a.spend, roas := a.roas })

/-- Whether pandas `sort_values("roas", ascending=False)` places `b`
before `a`: larger roas first, NaN last. -/
def roasBetter (a b : AggR) : Bool :=
  pvalLt a.roas b.roas ||
    (match a.roas, b.roas with
     | PVal.nan, PVal.num _ => true
     | _, _ => false)

/-- `best_campaign = campaign_summary.sort_values("roas", ascending=False).head(1)`
(src/test.py line 285). -/
def bestCampaign (cs : List AggR) : Option AggR :=
  cs.foldl
    (fun acc b =>
      match acc with
      | none => some b
      | some a => if roasBetter a b then some b else some a)
    none

/-- The scale-up recommendation for the best campaign
(src/test.py lines 285-290). -/
def scaleRecs (cs : List AggR) : List Recommendation :=
  match bestCampaign cs with
  | none => []
  | some a => [{ kind := RecKind.scale, subject := a.key, spend := a.spend, roas := a.roas }]

/-- The full recommendation list of src/test.py lines 270-290, built from
the campaign summary and the daily summary of the unified record set. -/
def recsTest (l : List MRow) : List Recommendation :=
  pauseRecs (campaignStats l) ++ spikeRecs (dailySummary l) ++ scaleRecs (campaignStats l)

/-- `underperforming` (src/app.py lines 316-319): campaigns with
`campaign_roas < 0.8` and `spend > 500`.  (The code additionally sorts
the result by spend for display; the sort does not change the set or its
spend total and is not modelled.) -/
def underperforming (l : List MRow) : List AggR :=
  (campaignStats l).filter
    (fun a => pvalLt a.roas (PVal.num (4 / 5)) && decide ((500 : ℚ) < a.spend))

/-- `potential_savings = underperforming["spend"].sum() * 0.5`
(src/app.py line 331). -/
def potentialSavings (l : List MRow) : ℚ :=
  aggSum (fun a => a.spend) (underperforming l) * (1 / 2)

/-! ### Concrete data used by witnesses and counterexamples -/

/-- Two one-day marketing records with very different spends (day 1:
spend 1, revenue 1; day 2: spend 100, revenue 400). -/
def exM1 : MRow := ⟨"d1", "camp", "Facebook", 10, 5, 1, 1⟩

def exM2 : MRow := ⟨"d2", "camp", "Facebook", 1000, 50, 100, 400⟩

def exB1 : BRow := ⟨"d1", 1000, 300⟩

def exB2 : BRow := ⟨"d2", 2000, 700⟩

/-- The combined record set of the two-day example. -/
def exCombined : List CRow := mergeBD [exB1, exB2] (dailyMarketing [exM1, exM2])

/-- A marketing record with zero clicks but positive spend. -/
def exZeroClicks : MRow := ⟨"d1", "camp", "Facebook", 10, 0, 5, 0⟩

/-- The five-day business series D1..D5 of the spec's join example. -/
def exB5 : List BRow :=
  [⟨"D1", 100, 10⟩, ⟨"D2", 200, 20⟩, ⟨"D3", 300, 30⟩, ⟨"D4", 400, 40⟩, ⟨"D5", 500, 50⟩]

/-- A daily marketing aggregate covering D3..D7 of the spec's join
example. -/
def exD37 : List AggR :=
  [⟨"D3", 100, 10, 50, 60, PVal.num (1 / 10), PVal.num 5, PVal.num (6 / 5)⟩,
   ⟨"D4", 100, 10, 50, 60, PVal.num (1 / 10), PVal.num 5, PVal.num (6 / 5)⟩,
   ⟨"D5", 100, 10, 50, 60, PVal.num (1 / 10), PVal.num 5, PVal.num (6 / 5)⟩,
   ⟨"D6", 100, 10, 50, 60, PVal.num (1 / 10), PVal.num 5, PVal.num (6 / 5)⟩,
   ⟨"D7", 100, 10, 50, 60, PVal.num (1 / 10), PVal.num 5, PVal.num (6 / 5)⟩]

/-- A daily aggregate row with a given date and spend and no marketing
ratio data (the ratio columns are irrelevant to the anomaly detector). -/
def exDay (d : String) (s : ℚ) : AggR := ⟨d, 0, 0, s, 0, PVal.nan, PVal.nan, PVal.nan⟩

/-- Nine days: eight with spend 0 and one with spend 9.  The sample mean
is 1, the sample variance 9 (std 3), so the band with k = 2.5 is
[max(0, -6.5), 8.5] and only the ninth day lies outside it. -/
def exNine : List AggR :=
  [exDay "d1" 0, exDay "d2" 0, exDay "d3" 0, exDay "d4" 0, exDay "d5" 0,
   exDay "d6" 0, exDay "d7" 0, exDay "d8" 0, exDay "d9" 9]

/-- Sixteen days: fifteen with spend 100 and one with spend 97.  The
sample mean is 1597/16, the sample variance 9/16 (std 3/4), so with k = 3
the lower band edge is 1561/16 = 97.5625 > 97, yet test.py's spike
detector has no lower check. -/
def exLow : AggR := exDay "low" 97

def exSeries16 : List AggR := List.replicate 15 (exDay "high" 100) ++ [exLow]

/-- Two days of constant negative spend. -/
def exNeg2 : List AggR := [exDay "n1" (-5), exDay "n2" (-5)]

/-- A single day of negative spend. -/
def exNeg1 : List AggR := [exDay "n0" (-7)]

/-- Two days of constant spend 5. -/
def exConst2 : List AggR := [exDay "c1" 5, exDay "c2" 5]

/-- A single-day series. -/
def exOne : List AggR := [exDay "o1" 3]

/-- Campaign A: spend 1000, attributed revenue 400 (roas 0.4);
campaign B: spend 1000, attributed revenue 600 (roas 0.6). -/
def exCampA : MRow := ⟨"d1", "A", "Facebook", 100, 10, 1000, 400⟩

def exCampB : MRow := ⟨"d1", "B", "Facebook", 100, 10, 1000, 600⟩

/-- The campaign aggregate of campaign A in `[exCampA, exCampB]`. -/
def exAggA : AggR := mkAggWith pdivQ (fun r => r.campaign) [exCampA, exCampB] "A"

/-- Campaign C: spend 200 above the spec's materiality floor of 100 but
not above the code's floor of 500, with roas 1/2 < 0.8. -/
def exCampC : MRow := ⟨"d1", "C", "Facebook", 100, 10, 200, 100⟩

def exAggC : AggR := mkAggWith pdivQ (fun r => r.campaign) [exCampC] "C"

/-- Campaign D: spend 600 (above the code's floor of 500) with roas 1/2. -/
def exCampD : MRow := ⟨"d1", "D", "Facebook", 100, 10, 600, 300⟩

def exAggD : AggR := mkAggWith pdivQ (fun r => r.campaign) [exCampD] "D"

/-- The same campaign name on two different channels. -/
def exChanF : MRow := ⟨"d1", "X", "Facebook", 10, 2, 30, 40⟩

def exChanG : MRow := ⟨"d2", "X", "Google", 20, 3, 50, 70⟩

/-- The channel aggregate of the two-day example (a single Facebook
partition). -/
def exAggFB : AggR := mkAggWith pdivQ (fun r => r.channel) [exM1, exM2] "Facebook"

/-- The channel aggregate of the single zero-click record. -/
def exAggZ : AggR := mkAggWith pdivQ (fun r => r.channel) [exZeroClicks] "Facebook"

/-! ### Structural lemmas about the groupby embedding -/

theorem uniqueKeys_nodup (key : MRow → String) (l : List MRow) :
    (uniqueKeys key l).Nodup := by
  induction l with
  | nil => simp [uniqueKeys]
  | cons r rs ih =>
    simp only [uniqueKeys, List.nodup_cons]
    constructor
    · intro h
      have := (List.mem_filter.mp h).2
      simp at this
    · exact ih.filter _

theorem mem_uniqueKeys (key : MRow → String) (l : List MRow) (k : String) :
    k ∈ uniqueKeys key l ↔ k ∈ l.map key := by
  induction l with
  | nil => simp [uniqueKeys]
  | cons r rs ih =>
    simp only [uniqueKeys, List.mem_cons, List.mem_filter, List.map_cons, bne_iff_ne]
    constructor
    · rintro (h | ⟨h, _⟩)
      · exact Or.inl h
      · exact Or.inr (ih.mp h)
    · rintro (h | h)
      · exact Or.inl h
      · by_cases hk : k = key r
        · exact Or.inl hk
        · exact Or.inr ⟨ih.mpr h, hk⟩

theorem part_of_not_mem (key : MRow → String) (l : List MRow) (k : String)
    (h : k ∉ l.map key) : part key l k = [] := by
  rw [part, List.filter_eq_nil_iff]
  intro r hr
  simp only [beq_iff_eq]
  intro hk
  exact h (List.mem_map.mpr ⟨r, hr, hk⟩)

theorem sum_head_key (g : String → ℚ) (a : String) :
    ∀ ks : List String, ks.Nodup → (a ∉ ks → g a = 0) →
      g a + ((ks.filter (fun k => k != a)).map g).sum = (ks.map g).sum := by
  intro ks
  induction ks with
  | nil =>
    intro _ h0
    simp [h0 (by simp)]
  | cons b ks ih =>
    intro hn h0
    rcases List.nodup_cons.mp hn with ⟨hb, hn'⟩
    by_cases hab : a = b
    · subst hab
      have : ks.filter (fun k => k != a) = ks :=
        List.filter_eq_self.mpr (fun x hx => by
          simp only [bne_iff_ne, ne_eq, decide_eq_true_eq]
          intro hxa
          exact hb (hxa ▸ hx))
      simp [this]
    · have hstep : (b :: ks).filter (fun k => k != a) = b :: ks.filter (fun k => k != a) := by
        simp [List.filter_cons, Ne.symm hab]
      have h0' : a ∉ ks → g a = 0 := by
        intro h
        exact h0 (by simp [hab, h])
      have := ih hn' h0'
      rw [hstep]
      simp only [List.map_cons, List.sum_cons]
      linarith

theorem groupSum (key : MRow → String) (f : MRow → ℚ) :
    ∀ l : List MRow,
      ((uniqueKeys key l).map (fun k => sumOver f (part key l k))).sum = sumOver f l := by
  intro l
  induction l with
  | nil => simp [uniqueKeys, sumOver]
  | cons r rs ih =>
    have hpart_head : part key (r :: rs) (key r) = r :: part key rs (key r) := by
      simp [part, List.filter_cons]
    have hpart_ne : ∀ k, k ≠ key r → part key (r :: rs) k = part key rs k := by
      intro k hk
      simp [part, List.filter_cons, Ne.symm hk]
    have hcongr :
        ((uniqueKeys key rs).filter (fun k => k != key r)).map
            (fun k => sumOver f (part key (r :: rs) k)) =
          ((uniqueKeys key rs).filter (fun k => k != key r)).map
            (fun k => sumOver f (part key rs k)) := by
      apply List.map_congr_left
      intro k hk
      have : k ≠ key r := by
        have := (List.mem_filter.mp hk).2
        simpa [bne_iff_ne] using this
      rw [hpart_ne k this]
    have hzero : key r ∉ uniqueKeys key rs → sumOver f (part key rs (key r)) = 0 := by
      intro h
      rw [part_of_not_mem key rs (key r) (fun hm => h ((mem_uniqueKeys key rs (key r)).mpr hm))]
      simp [sumOver]
    have hmain := sum_head_key (fun k => sumOver f (part key rs k)) (key r)
      (uniqueKeys key rs) (uniqueKeys_nodup key rs) hzero
    simp only [uniqueKeys, List.map_cons, List.sum_cons, hcongr, hpart_head]
    have hsum : sumOver f (r :: part key rs (key r)) = f r + sumOver f (part key rs (key r)) := by
      simp [sumOver]
    rw [hsum]
    have hrs : sumOver f (r :: rs) = f r + sumOver f rs := by
      simp [sumOver]
    rw [hrs]
    linarith [hmain]

theorem mem_aggregateWith (dv : ℚ → ℚ → PVal) (key : MRow → String)
    (l : List MRow) (a : AggR) :
    a ∈ aggregateWith dv key l ↔
      a.key ∈ uniqueKeys key l ∧ a = mkAggWith dv key l a.key := by
  constructor
  · intro h
    rcases List.mem_map.mp h with ⟨k, hk, rfl⟩
    exact ⟨hk, rfl⟩
  · rintro ⟨hk, ha⟩
    rw [ha]
    exact List.mem_map.mpr ⟨a.key, hk, rfl⟩

theorem aggregateWith_sum (dv : ℚ → ℚ → PVal) (key : MRow → String)
    (l : List MRow) (f : MRow → ℚ) :
    aggSum (fun a => sumOver f (part key l a.key)) (aggregateWith dv key l) = sumOver f l := by
  rw [aggSum, aggregateWith, List.map_map]
  have : ((fun a => sumOver f (part key l a.key)) ∘ mkAggWith dv key l) =
      (fun k => sumOver f (part key l k)) := rfl
  rw [this]
  exact groupSum key f l

/-- The key column of a groupby output has no duplicates: this is what
makes modelling the left join by `find?` faithful to `pd.merge` when the
right side is a daily aggregate. -/
theorem aggregateWith_keys_nodup (dv : ℚ → ℚ → PVal) (key : MRow → String)
    (l : List MRow) : ((aggregateWith dv key l).map (fun a => a.key)).Nodup := by
  rw [aggregateWith, List.map_map]
  have : ((fun a => a.key) ∘ mkAggWith dv key l) = id := rfl
  rw [this, List.map_id]
  exact uniqueKeys_nodup key l

theorem dailyMarketing_keys_nodup (l : List MRow) :
    ((dailyMarketing l).map (fun a => a.key)).Nodup :=
  aggregateWith_keys_nodup pdivSafeQ (fun r => r.date) l

/-! ### Structural lemmas about the left join -/

theorem mergeBD_map_date (B : List BRow) (D : List AggR) :
    (mergeBD B D).map (fun c => c.date) = B.map (fun b => b.date) := by
  rw [mergeBD, List.map_map]
  rfl

theorem combineRow_none_fields (b : BRow) :
    (combineRow b none).impression = none ∧ (combineRow b none).clicks = none ∧
      (combineRow b none).spend = none ∧ (combineRow b none).attributed_revenue = none ∧
      (combineRow b none).daily_roas = PVal.nan := by
  refine ⟨rfl, rfl, rfl, rfl, rfl⟩

/-! ### The statistical band: squared comparison versus real-number band -/

theorem sVar_nonneg (l : List ℚ) (v : ℚ) (h : sVar l = some v) : 0 ≤ v := by
  rw [sVar] at h
  by_cases hl : l.length < 2
  · simp [hl] at h
  · simp only [hl, if_false, Option.some_inj] at h
    subst h
    apply div_nonneg
    · apply List.sum_nonneg
      intro x hx
      rcases List.mem_map.mp hx with ⟨y, _, rfl⟩
      positivity
    · have : 2 ≤ l.length := Nat.le_of_not_lt hl
      have : (2 : ℚ) ≤ (l.length : ℚ) := by exact_mod_cast this
      linarith

theorem kSqrt_lt (k v x : ℚ) (hv : 0 ≤ v) (hk : 0 < k) :
    ((k : ℝ) * Real.sqrt ((v : ℚ) : ℝ) < ((x : ℚ) : ℝ)) ↔ (0 < x ∧ k ^ 2 * v < x ^ 2) := by
  have hs : (0 : ℝ) ≤ Real.sqrt ((v : ℚ) : ℝ) := Real.sqrt_nonneg _
  have hsq : (Real.sqrt ((v : ℚ) : ℝ)) ^ 2 = ((v : ℚ) : ℝ) := by
    apply Real.sq_sqrt
    exact_mod_cast hv
  have hk' : (0 : ℝ) < (k : ℚ) := by exact_mod_cast hk
  have hks : (0 : ℝ) ≤ (k : ℝ) * Real.sqrt ((v : ℚ) : ℝ) := mul_nonneg hk'.le hs
  constructor
  · intro hlt
    have hx : (0 : ℝ) < ((x : ℚ) : ℝ) := lt_of_le_of_lt hks hlt
    constructor
    · exact_mod_cast hx
    · have h2 : ((k : ℝ) * Real.sqrt ((v : ℚ) : ℝ)) ^ 2 < ((x : ℚ) : ℝ) ^ 2 := by
        apply pow_lt_pow_left₀ hlt hks
        norm_num
      have h3 : ((k : ℚ) : ℝ) ^ 2 * ((v : ℚ) : ℝ) < ((x : ℚ) : ℝ) ^ 2 := by
        calc ((k : ℚ) : ℝ) ^ 2 * ((v : ℚ) : ℝ)
            = ((k : ℝ) * Real.sqrt ((v : ℚ) : ℝ)) ^ 2 := by rw [mul_pow, hsq]
          _ < ((x : ℚ) : ℝ) ^ 2 := h2
      exact_mod_cast h3
  · rintro ⟨hx, hlt⟩
    have hx' : (0 : ℝ) < ((x : ℚ) : ℝ) := by exact_mod_cast hx
    by_contra hle
    push_neg at hle
    have h2 : ((x : ℚ) : ℝ) ^ 2 ≤ ((k : ℝ) * Real.sqrt ((v : ℚ) : ℝ)) ^ 2 := by
      apply pow_le_pow_left₀ hx'.le hle
    rw [mul_pow, hsq] at h2
    have hlt' : ((k : ℚ) : ℝ) ^ 2 * ((v : ℚ) : ℝ) < ((x : ℚ) : ℝ) ^ 2 := by exact_mod_cast hlt
    linarith

theorem outUpper_iff (k mu v s : ℚ) (hv : 0 ≤ v) (hk : 0 < k) :
    outUpper (k ^ 2) mu v s = true ↔
      ((mu : ℚ) : ℝ) + (k : ℚ) * Real.sqrt ((v : ℚ) : ℝ) < ((s : ℚ) : ℝ) := by
  have hcast : (((s - mu : ℚ)) : ℝ) = ((s : ℚ) : ℝ) - ((mu : ℚ) : ℝ) := by push_cast; ring
  have := kSqrt_lt k v (s - mu) hv hk
  rw [hcast] at this
  rw [outUpper]
  simp only [Bool.and_eq_true, decide_eq_true_eq]
  rw [show (((mu : ℚ) : ℝ) + (k : ℚ) * Real.sqrt ((v : ℚ) : ℝ) < ((s : ℚ) : ℝ)) ↔
      ((k : ℚ) : ℝ) * Real.sqrt ((v : ℚ) : ℝ) < ((s : ℚ) : ℝ) - ((mu : ℚ) : ℝ) by
    constructor <;> intro h <;> linarith]
  rw [this]
  constructor
  · rintro ⟨h1, h2⟩
    exact ⟨by linarith [sub_pos.mpr h1], by nlinarith⟩
  · rintro ⟨h1, h2⟩
    exact ⟨by linarith [sub_pos.mp h1], by nlinarith⟩

theorem outLower_iff (k mu v s : ℚ) (hv : 0 ≤ v) (hk : 0 < k) :
    outLower (k ^ 2) mu v s = true ↔
      ((s : ℚ) : ℝ) < max 0 (((mu : ℚ) : ℝ) - (k : ℚ) * Real.sqrt ((v : ℚ) : ℝ)) := by
  have hcast : (((mu - s : ℚ)) : ℝ) = ((mu : ℚ) : ℝ) - ((s : ℚ) : ℝ) := by push_cast; ring
  have hcore := kSqrt_lt k v (mu - s) hv hk
  rw [hcast] at hcore
  rw [outLower, lt_max_iff]
  simp only [Bool.or_eq_true, Bool.and_eq_true, decide_eq_true_eq]
  constructor
  · rintro (h | ⟨h1, h2⟩)
    · left
      exact_mod_cast h
    · right
      have : ((k : ℚ) : ℝ) * Real.sqrt ((v : ℚ) : ℝ) < ((mu : ℚ) : ℝ) - ((s : ℚ) : ℝ) :=
        hcore.mpr ⟨by linarith [sub_pos.mpr h1], by nlinarith⟩
      linarith
  · rintro (h | h)
    · left
      exact_mod_cast h
    · right
      have := hcore.mp (by linarith)
      exact ⟨by linarith [sub_pos.mp this.1], by nlinarith [this.2]⟩

/-- app.py's anomaly membership test, for a series of at least two days,
is exactly the real-number band check `spend > mean + 2.5*std or
spend < max(0, mean - 2.5*std)`. -/
theorem anomB_iff (spends : List ℚ) (s : ℚ) (h : 2 ≤ spends.length) :
    anomB spends s = true ↔
      (((sMean spends : ℚ) : ℝ) + (5 / 2 : ℝ) * sStd spends < ((s : ℚ) : ℝ)
       ∨ ((s : ℚ) : ℝ) < max 0 (((sMean spends : ℚ) : ℝ) - (5 / 2 : ℝ) * sStd spends)) := by
  have hlt : ¬ spends.length < 2 := Nat.not_lt.mpr h
  cases hsv : sVar spends with
  | none =>
    rw [sVar] at hsv
    simp [hlt] at hsv
  | some v =>
    have hv0 : 0 ≤ v := sVar_nonneg spends v hsv
    have hstd : sStd spends = Real.sqrt ((v : ℚ) : ℝ) := by
      rw [sStd, hsv]
      rfl
    have h254 : (25 / 4 : ℚ) = (5 / 2 : ℚ) ^ 2 := by norm_num
    have hk52 : ((5 / 2 : ℚ) : ℝ) = (5 / 2 : ℝ) := by norm_num
    rw [anomB, hsv, hstd]
    simp only [Bool.or_eq_true]
    rw [h254, outUpper_iff (5 / 2) (sMean spends) v s hv0 (by norm_num),
      outLower_iff (5 / 2) (sMean spends) v s hv0 (by norm_num), hk52]

/-- test.py's spike membership test, for a series of at least two days,
is exactly `spend > mean + 3*std`, with no lower-band check. -/
theorem spikeB_iff (spends : List ℚ) (s : ℚ) (h : 2 ≤ spends.length) :
    spikeB spends s = true ↔
      ((sMean spends : ℚ) : ℝ) + (3 : ℝ) * sStd spends < ((s : ℚ) : ℝ) := by
  have hlt : ¬ spends.length < 2 := Nat.not_lt.mpr h
  cases hsv : sVar spends with
  | none =>
    rw [sVar] at hsv
    simp [hlt] at hsv
  | some v =>
    have hv0 : 0 ≤ v := sVar_nonneg spends v hsv
    have hstd : sStd spends = Real.sqrt ((v : ℚ) : ℝ) := by
      rw [sStd, hsv]
      rfl
    have h9 : (9 : ℚ) = (3 : ℚ) ^ 2 := by norm_num
    have hk3 : ((3 : ℚ) : ℝ) = (3 : ℝ) := by norm_num
    rw [spikeB, hsv, hstd, h9, outUpper_iff 3 (sMean spends) v s hv0 (by norm_num), hk3]

/-- Every field of an aggregate row is determined by the partition of its
key: the base quantities are the partition sums and the ratio columns are
the division policy applied to those sums. -/
theorem aggregateWith_fields (dv : ℚ → ℚ → PVal) (key : MRow → String)
    (l : List MRow) (a : AggR) (h : a ∈ aggregateWith dv key l) :
    a.impression = sumOver (fun r => r.impression) (part key l a.key) ∧
    a.clicks = sumOver (fun r => r.clicks) (part key l a.key) ∧
    a.spend = sumOver (fun r => r.spend) (part key l a.key) ∧
    a.attributed_revenue = sumOver (fun r => r.attributed_revenue) (part key l a.key) ∧
    a.ctr = dv (sumOver (fun r => r.clicks) (part key l a.key))
        (sumOver (fun r => r.impression) (part key l a.key)) ∧
    a.cpc = dv (sumOver (fun r => r.spend) (part key l a.key))
        (sumOver (fun r => r.clicks) (part key l a.key)) ∧
    a.roas = dv (sumOver (fun r => r.attributed_revenue) (part key l a.key))
        (sumOver (fun r => r.spend) (part key l a.key)) := by
  rcases (mem_aggregateWith dv key l a).mp h with ⟨_, ha⟩
  rw [ha]
  exact ⟨rfl, rfl, rfl, rfl, rfl, rfl, rfl⟩

/-! ### Claim theorems -/

/-- Claim C1 (amended): at the three groupby granularities — by channel,
by campaign, and by date — each derived ratio column (ctr, cpc, roas)
equals the appropriate division of the summed numerator base quantity by
the summed denominator base quantity of that partition, never a mean of
row-level ratios.  (The claim as frozen also covers the range-level
"Average ROAS" KPI; that summary is the arithmetic mean of the daily
roas values, refuted by `claim1_counterexample`.) -/
theorem claim1_aggregate_ratios_are_ratio_of_sums (l : List MRow) :
    (∀ a ∈ channelStats l,
        a.ctr = pdivQ (sumOver (fun r => r.clicks) (part (fun r => r.channel) l a.key))
          (sumOver (fun r => r.impression) (part (fun r => r.channel) l a.key)) ∧
        a.cpc = pdivQ (sumOver (fun r => r.spend) (part (fun r => r.channel) l a.key))
          (sumOver (fun r => r.clicks) (part (fun r => r.channel) l a.key)) ∧
        a.roas = pdivQ (sumOver (fun r => r.attributed_revenue) (part (fun r => r.channel) l a.key))
          (sumOver (fun r => r.spend) (part (fun r => r.channel) l a.key))) ∧
    (∀ a ∈ campaignStats l,
        a.ctr = pdivQ (sumOver (fun r => r.clicks) (part (fun r => r.campaign) l a.key))
          (sumOver (fun r => r.impression) (part (fun r => r.campaign) l a.key)) ∧
        a.cpc = pdivQ (sumOver (fun r => r.spend) (part (fun r => r.campaign) l a.key))
          (sumOver (fun r => r.clicks) (part (fun r => r.campaign) l a.key)) ∧
        a.roas = pdivQ (sumOver (fun r => r.attributed_revenue) (part (fun r => r.campaign) l a.key))
          (sumOver (fun r => r.spend) (part (fun r => r.campaign) l a.key))) ∧
    (∀ a ∈ dailyMarketing l,
        a.ctr = pdivSafeQ (sumOver (fun r => r.clicks) (part (fun r => r.date) l a.key))
          (sumOver (fun r => r.impression) (part (fun r => r.date) l a.key)) ∧
        a.cpc = pdivSafeQ (sumOver (fun r => r.spend) (part (fun r => r.date) l a.key))
          (sumOver (fun r => r.clicks) (part (fun r => r.date) l a.key)) ∧
        a.roas = pdivSafeQ (sumOver (fun r => r.attributed_revenue) (part (fun r => r.date) l a.key))
          (sumOver (fun r => r.spend) (part (fun r => r.date) l a.key))) := by
  refine ⟨?_, ?_, ?_⟩
  · intro a ha
    have h := aggregateWith_fields pdivQ (fun r => r.channel) l a ha
    exact ⟨h.2.2.2.2.1, h.2.2.2.2.2.1, h.2.2.2.2.2.2⟩
  · intro a ha
    have h := aggregateWith_fields pdivQ (fun r => r.campaign) l a ha
    exact ⟨h.2.2.2.2.1, h.2.2.2.2.2.1, h.2.2.2.2.2.2⟩
  · intro a ha
    have h := aggregateWith_fields pdivSafeQ (fun r => r.date) l a ha
    exact ⟨h.2.2.2.2.1, h.2.2.2.2.2.1, h.2.2.2.2.2.2⟩

/-- Witness for C1: on the two-day example, the Facebook channel
aggregate's roas is the ratio of the summed revenue over the summed
spend of its partition. -/
theorem claim1_witness :
    exAggFB ∈ channelStats [exM1, exM2] ∧
      (exAggFB.ctr = pdivQ
          (sumOver (fun r => r.clicks) (part (fun r => r.channel) [exM1, exM2] exAggFB.key))
          (sumOver (fun r => r.impression) (part (fun r => r.channel) [exM1, exM2] exAggFB.key)) ∧
        exAggFB.cpc = pdivQ
          (sumOver (fun r => r.spend) (part (fun r => r.channel) [exM1, exM2] exAggFB.key))
          (sumOver (fun r => r.clicks) (part (fun r => r.channel) [exM1, exM2] exAggFB.key)) ∧
        exAggFB.roas = pdivQ
          (sumOver (fun r => r.attributed_revenue) (part (fun r => r.channel) [exM1, exM2] exAggFB.key))
          (sumOver (fun r => r.spend) (part (fun r => r.channel) [exM1, exM2] exAggFB.key))) :=
  ⟨by simp [channelStats, aggregateWith, uniqueKeys, exAggFB, exM1, exM2, List.filter],
   (claim1_aggregate_ratios_are_ratio_of_sums [exM1, exM2]).1 exAggFB
     (by simp [channelStats, aggregateWith, uniqueKeys, exAggFB, exM1, exM2, List.filter])⟩

/-- Counterexample for C1 as frozen: the range-level "Average ROAS" KPI
(`avg_roas = filtered["daily_roas"].mean()`, src/app.py line 125) on the
two-day example equals 5/2, the arithmetic mean of the daily roas values
1 and 4, while the ratio of the summed revenue (401) over the summed
spend (101) is 401/101 ≈ 3.97; the two differ, so the range-level
summary shown to the caller is computed as a mean of row-level ratios,
not as a ratio of sums. -/
theorem claim1_counterexample :
    avgRoas exCombined = PVal.num (5 / 2) ∧
    pdivSafeQ (totalAttrKpi exCombined) (totalSpendKpi exCombined) = PVal.num (401 / 101) ∧
    PVal.num (5 / 2 : ℚ) ≠ PVal.num (401 / 101) := by
  refine ⟨?_, ?_, ?_⟩
  · simp [avgRoas, pmean, exCombined, mergeBD, combineRow, dailyMarketing, aggregateWith,
      uniqueKeys, mkAggWith, part, sumOver, pdivSafeQ, replaceZero, pdiv, optPV, optQ,
      exM1, exM2, exB1, exB2, List.filter, List.find?, List.filterMap]
    norm_num
  · simp [totalAttrKpi, totalSpendKpi, sumOptQ, exCombined, mergeBD, combineRow,
      dailyMarketing, aggregateWith, uniqueKeys, mkAggWith, part, sumOver, pdivSafeQ,
      replaceZero, pdiv, optPV, optQ, exM1, exM2, exB1, exB2, List.filter, List.find?,
      List.filterMap]
    norm_num
  · simp only [ne_eq, PVal.num.injEq]
    norm_num

theorem pdiv_nan_right (x : PVal) : pdiv x PVal.nan = PVal.nan := by
  cases x <;> rfl

/-- Claim C2 (amended): the null-safe ratios of `load_data` (record-level
ctr/cpc/roas, and the two post-join ratios over `total_revenue`) produce
an explicit NaN on a zero denominator; but the aggregate-level ratio
columns of `channel_stats`/`campaign_stats` and the record-level ratios
of test.py use bare division, which yields a signed infinity whenever
the denominator is zero and the numerator is nonzero. -/
theorem claim2_zero_denominator_policy :
    (∀ r : MRow, r.impression = 0 → ctrApp r = PVal.nan) ∧
    (∀ r : MRow, r.clicks = 0 → cpcApp r = PVal.nan) ∧
    (∀ r : MRow, r.spend = 0 → roasApp r = PVal.nan) ∧
    (∀ (b : BRow) (od : Option AggR), b.total_revenue = 0 →
        (combineRow b od).marketing_revenue_share = PVal.nan ∧
        (combineRow b od).marketing_spend_pct = PVal.nan) ∧
    (∀ r : MRow, r.clicks = 0 → 0 < r.spend → cpcTest r = PVal.inf) ∧
    (∀ l : List MRow, ∀ a ∈ channelStats l, a.clicks = 0 → 0 < a.spend → a.cpc = PVal.inf) ∧
    (∀ l : List MRow, ∀ a ∈ campaignStats l,
        a.spend = 0 → 0 < a.attributed_revenue → a.roas = PVal.inf) := by
  refine ⟨?_, ?_, ?_, ?_, ?_, ?_, ?_⟩
  · intro r h
    simp [ctrApp, pdivSafeQ, replaceZero, h, pdiv_nan_right]
  · intro r h
    simp [cpcApp, pdivSafeQ, replaceZero, h, pdiv_nan_right]
  · intro r h
    simp [roasApp, pdivSafeQ, replaceZero, h, pdiv_nan_right]
  · intro b od h
    constructor <;> simp [combineRow, replaceZero, h, pdiv_nan_right]
  · intro r h hpos
    simp [cpcTest, pdivQ, pdiv, h, hpos]
  · intro l a ha h hpos
    have hf := aggregateWith_fields pdivQ (fun r => r.channel) l a ha
    rw [hf.2.2.2.2.2.1, ← hf.2.1, ← hf.2.2.1]
    simp [pdivQ, pdiv, h, hpos]
  · intro l a ha h hpos
    have hf := aggregateWith_fields pdivQ (fun r => r.campaign) l a ha
    rw [hf.2.2.2.2.2.2, ← hf.2.2.1, ← hf.2.2.2.1]
    simp [pdivQ, pdiv, h, hpos]

/-- Witness for C2: the zero-click record's null-safe cpc is NaN, and the
channel aggregate over it (clicks 0, spend 5) has cpc = +inf. -/
theorem claim2_witness :
    (exZeroClicks.clicks = 0 ∧ cpcApp exZeroClicks = PVal.nan) ∧
      (exAggZ ∈ channelStats [exZeroClicks] ∧ exAggZ.clicks = 0 ∧ 0 < exAggZ.spend ∧
        exAggZ.cpc = PVal.inf) :=
  ⟨⟨rfl, claim2_zero_denominator_policy.2.1 exZeroClicks rfl⟩,
   ⟨by simp [channelStats, aggregateWith, uniqueKeys, exAggZ, exZeroClicks, List.filter],
    by simp [exAggZ, mkAggWith, part, sumOver, exZeroClicks, List.filter],
    by norm_num [exAggZ, mkAggWith, part, sumOver, exZeroClicks, List.filter],
    claim2_zero_denominator_policy.2.2.2.2.2.1 [exZeroClicks] exAggZ
      (by simp [channelStats, aggregateWith, uniqueKeys, exAggZ, exZeroClicks, List.filter])
      (by simp [exAggZ, mkAggWith, part, sumOver, exZeroClicks, List.filter])
      (by norm_num [exAggZ, mkAggWith, part, sumOver, exZeroClicks, List.filter])⟩⟩

/-- Counterexample for C2 as frozen: the channel aggregation of a record
with zero clicks and spend 5 yields `channel_cpc = +inf`
(src/app.py line 190 divides the summed spend by the summed clicks with
no zero-replacement), so a zero denominator in this ratio computation
does NOT produce an explicit undefined value — it produces positive
infinity. -/
theorem claim2_counterexample :
    (channelStats [exZeroClicks]).map (fun a => a.cpc) = [PVal.inf] ∧
      PVal.inf ≠ PVal.nan := by
  constructor
  · simp [channelStats, aggregateWith, uniqueKeys, mkAggWith, part, sumOver, pdivQ, pdiv,
      exZeroClicks, List.filter]
  · simp

/-- Claim C3: for every non-empty unified record set, the sum of each
base quantity over the by-channel aggregation equals its sum over all
records (conservation). -/
theorem claim3_conservation (l : List MRow) (_h : l ≠ []) :
    aggSum (fun a => a.impression) (channelStats l) = sumOver (fun r => r.impression) l ∧
    aggSum (fun a => a.clicks) (channelStats l) = sumOver (fun r => r.clicks) l ∧
    aggSum (fun a => a.spend) (channelStats l) = sumOver (fun r => r.spend) l ∧
    aggSum (fun a => a.attributed_revenue) (channelStats l)
      = sumOver (fun r => r.attributed_revenue) l := by
  refine ⟨?_, ?_, ?_, ?_⟩ <;>
    · rw [aggSum, channelStats, aggregateWith, List.map_map]
      exact groupSum (fun r => r.channel) _ l

/-- Witness for C3: on the two-day example the total spend 101 is
conserved by the by-channel aggregation. -/
theorem claim3_witness :
    ([exM1, exM2] : List MRow) ≠ [] ∧
      sumOver (fun r => r.spend) [exM1, exM2] = 101 ∧
      aggSum (fun a => a.spend) (channelStats [exM1, exM2])
        = sumOver (fun r => r.spend) [exM1, exM2] :=
  ⟨by simp,
   by norm_num [sumOver, exM1, exM2],
   (claim3_conservation [exM1, exM2] (by simp)).2.2.1⟩

/-- Claim C4: the join is a left outer join driven by the business side.
For a business series with distinct dates (its data-model invariant) and
any date-keyed daily aggregate: the output dates are exactly the business
dates in order, every output row's date is a business date (marketing-only
dates are dropped), each business date occurs exactly once, and a business
date with no marketing match yields absent marketing fields, not zeros. -/
theorem claim4_left_join (B : List BRow) (D : List AggR)
    (hB : (B.map (fun b => b.date)).Nodup) :
    ((mergeBD B D).map (fun c => c.date) = B.map (fun b => b.date)) ∧
    (∀ c ∈ mergeBD B D, ∃ b ∈ B, c.date = b.date) ∧
    (∀ b ∈ B, ((mergeBD B D).filter (fun c => c.date == b.date)).length = 1) ∧
    (∀ b ∈ B, (∀ d ∈ D, d.key ≠ b.date) → ∀ c ∈ mergeBD B D, c.date = b.date →
        c.impression = none ∧ c.clicks = none ∧ c.spend = none ∧
        c.attributed_revenue = none ∧ c.daily_roas = PVal.nan) := by
  refine ⟨mergeBD_map_date B D, ?_, ?_, ?_⟩
  · intro c hc
    rcases List.mem_map.mp hc with ⟨b, hb, rfl⟩
    exact ⟨b, hb, rfl⟩
  · intro b hb
    have h1 : ((mergeBD B D).filter (fun c => c.date == b.date)).length
        = ((mergeBD B D).map (fun c => c.date)).count b.date := by
      rw [List.count, List.countP_map, ← List.countP_eq_length_filter]
      rfl
    rw [h1, mergeBD_map_date B D]
    exact List.count_eq_one_of_mem hB (List.mem_map.mpr ⟨b, hb, rfl⟩)
  · intro b hb hnone c hc hcd
    rcases List.mem_map.mp hc with ⟨b', hb', rfl⟩
    have hd : (combineRow b' (D.find? (fun d => d.key == b'.date))).date = b'.date := rfl
    rw [hd] at hcd
    have hfind : D.find? (fun d => d.key == b'.date) = none := by
      rw [List.find?_eq_none]
      intro d hdmem
      simp only [beq_iff_eq]
      rw [hcd]
      exact hnone d hdmem
    rw [hfind]
    exact ⟨rfl, rfl, rfl, rfl, rfl⟩

/-- Witness for C4: the spec's example — business dates D1..D5 joined
with a marketing aggregate covering D3..D7 gives exactly the five rows
D1..D5; D1 and D2 carry absent marketing spend, D3..D5 the matched spend
50, and D6..D7 do not appear. -/
theorem claim4_witness :
    (exB5.map (fun b => b.date)).Nodup ∧
      ((mergeBD exB5 exD37).map (fun c => c.date) = exB5.map (fun b => b.date)) ∧
      (mergeBD exB5 exD37).length = 5 ∧
      (mergeBD exB5 exD37).map (fun c => c.spend)
        = [none, none, some 50, some 50, some 50] :=
  ⟨by decide,
   (claim4_left_join exB5 exD37 (by decide)).1,
   by simp [mergeBD, exB5],
   by simp [mergeBD, combineRow, exB5, exD37, List.find?]⟩

/-- Claim C5 (amended): for a daily series of at least two days, with μ
the sample mean and σ the sample (n-1) standard deviation of the spend
column, app.py's detector emits a day exactly when
`spend > μ + 2.5·σ` or `spend < max(0, μ - 2.5·σ)` (k = 2.5 is written
in place, not passed as a parameter), while test.py's detector emits a
day exactly when `spend > μ + 3·σ` — it never performs the lower-band
check.  Neither detector records a direction on the emitted rows: the
output rows are unmodified daily rows. -/
theorem claim5_detector_band (daily : List AggR) (h : 2 ≤ daily.length) :
    (∀ r, r ∈ anomalies daily ↔ r ∈ daily ∧
        (((sMean (daily.map (fun x => x.spend)) : ℚ) : ℝ)
            + (5 / 2 : ℝ) * sStd (daily.map (fun x => x.spend)) < ((r.spend : ℚ) : ℝ)
          ∨ ((r.spend : ℚ) : ℝ) < max 0 (((sMean (daily.map (fun x => x.spend)) : ℚ) : ℝ)
            - (5 / 2 : ℝ) * sStd (daily.map (fun x => x.spend))))) ∧
    (∀ r, r ∈ spikes daily ↔ r ∈ daily ∧
        ((sMean (daily.map (fun x => x.spend)) : ℚ) : ℝ)
          + (3 : ℝ) * sStd (daily.map (fun x => x.spend)) < ((r.spend : ℚ) : ℝ)) := by
  have hlen : 2 ≤ (daily.map (fun x => x.spend)).length := by simpa using h
  constructor
  · intro r
    rw [anomalies, List.mem_filter, anomB_iff _ _ hlen]
  · intro r
    rw [spikes, List.mem_filter, spikeB_iff _ _ hlen]

/-- Witness for C5: in the nine-day series (eight days of spend 0, one of
spend 9; μ = 1, σ = 3) the ninth day is emitted and the membership
equivalence holds for it. -/
theorem claim5_witness :
    2 ≤ exNine.length ∧ exDay "d9" 9 ∈ anomalies exNine ∧
      (exDay "d9" 9 ∈ anomalies exNine ↔ exDay "d9" 9 ∈ exNine ∧
        (((sMean (exNine.map (fun x => x.spend)) : ℚ) : ℝ)
            + (5 / 2 : ℝ) * sStd (exNine.map (fun x => x.spend)) < (((exDay "d9" 9).spend : ℚ) : ℝ)
          ∨ (((exDay "d9" 9).spend : ℚ) : ℝ)
            < max 0 (((sMean (exNine.map (fun x => x.spend)) : ℚ) : ℝ)
              - (5 / 2 : ℝ) * sStd (exNine.map (fun x => x.spend))))) :=
  ⟨by simp [exNine],
   by
    simp [anomalies, anomB, sVar, sMean, outUpper, outLower, exNine, exDay, List.filter]
    norm_num,
   (claim5_detector_band exNine (by simp [exNine])).1 (exDay "d9" 9)⟩

/-- Counterexample for C5 as frozen: in the sixteen-day series (fifteen
days of spend 100, one of spend 97; μ = 1597/16, σ = 3/4) the day with
spend 97 lies below `max(0, μ - 3·σ) = 97.5625`, yet test.py's detector
(src/test.py lines 256-260) emits nothing: its "if and only if" fails on
the lower band, which that detector never checks. -/
theorem claim5_counterexample :
    exLow ∈ exSeries16 ∧
      ((exLow.spend : ℚ) : ℝ) < max 0 (((sMean (exSeries16.map (fun x => x.spend)) : ℚ) : ℝ)
          - (3 : ℝ) * sStd (exSeries16.map (fun x => x.spend))) ∧
      exLow ∉ spikes exSeries16 := by
  have hv : sVar (exSeries16.map (fun x => x.spend)) = some (9 / 16) := by
    simp [sVar, sMean, exSeries16, exDay, exLow, List.replicate]
    norm_num
  have hm : sMean (exSeries16.map (fun x => x.spend)) = 1597 / 16 := by
    simp [sMean, exSeries16, exDay, exLow, List.replicate]
    norm_num
  refine ⟨?_, ?_, ?_⟩
  · simp [exSeries16, exLow]
  · have hstd : sStd (exSeries16.map (fun x => x.spend)) = 3 / 4 := by
      rw [sStd, hv, Option.getD_some]
      rw [show (((9 / 16 : ℚ) : ℝ)) = (3 / 4 : ℝ) ^ 2 by norm_num]
      exact Real.sqrt_sq (by norm_num)
    rw [hstd, hm]
    rw [show (exLow.spend : ℚ) = 97 from rfl]
    rw [max_eq_right (by norm_num)]
    norm_num
  · intro hmem
    have h2 := (List.mem_filter.mp hmem).2
    simp only [spikeB, hv, hm] at h2
    rw [show exLow.spend = (97 : ℚ) from rfl] at h2
    simp only [outUpper, Bool.and_eq_true, decide_eq_true_eq] at h2
    norm_num at h2

/-- Claim C6 (amended): for a series with fewer than two days the std is
NaN: test.py's detector emits nothing, and app.py's detector emits
exactly the days with negative spend — Python's `max(0, NaN)` evaluates
to 0, so the lower check degenerates to `spend < 0` — hence nothing when
spends are non-negative.  A zero-variance series whose common spend
value is non-negative yields no anomalies from either detector; with a
negative common value every day is flagged (see
`claim6_counterexample`): the lower band is clamped at 0, so every day
satisfies `spend < max(0, μ)`. -/
theorem claim6_degenerate_series (daily : List AggR) (c : ℚ) :
    (daily.length < 2 →
        anomalies daily = daily.filter (fun r => decide (r.spend < 0)) ∧ spikes daily = []) ∧
    ((∀ r ∈ daily, 0 ≤ r.spend) → daily.length < 2 → anomalies daily = []) ∧
    ((∀ r ∈ daily, r.spend = c) → 0 ≤ c → anomalies daily = [] ∧ spikes daily = []) := by
  have hshort : daily.length < 2 →
      anomalies daily = daily.filter (fun r => decide (r.spend < 0)) ∧ spikes daily = [] := by
    intro hlen
    have hv : sVar (daily.map (fun x => x.spend)) = none := by
      rw [sVar, if_pos (by simpa using hlen)]
    constructor
    · rw [anomalies]
      apply List.filter_congr
      intro r _
      simp [anomB, hv]
    · rw [spikes, List.filter_eq_nil_iff]
      intro r _
      simp [spikeB, hv]
  refine ⟨hshort, ?_, ?_⟩
  · intro hnn hlen
    rw [(hshort hlen).1, List.filter_eq_nil_iff]
    intro r hr
    simp only [decide_eq_true_eq, not_lt]
    exact hnn r hr
  · intro hconst hc
    by_cases hlen : daily.length < 2
    · refine ⟨?_, (hshort hlen).2⟩
      rw [(hshort hlen).1, List.filter_eq_nil_iff]
      intro r hr
      simp only [decide_eq_true_eq, not_lt]
      rw [hconst r hr]
      exact hc
    · have hlen2 : 2 ≤ daily.length := Nat.le_of_not_lt hlen
      have hne : (daily.length : ℚ) ≠ 0 := by
        have h0 : daily.length ≠ 0 := by omega
        exact_mod_cast h0
      have hallc : ∀ x ∈ daily.map (fun r => r.spend), x = c := by
        intro x hx
        rcases List.mem_map.mp hx with ⟨r, hr, rfl⟩
        exact hconst r hr
      have hmean : sMean (daily.map (fun x => x.spend)) = c := by
        rw [sMean, List.sum_eq_card_nsmul _ c hallc]
        simp only [List.length_map, nsmul_eq_mul]
        field_simp
      have hvar : sVar (daily.map (fun x => x.spend)) = some 0 := by
        rw [sVar, if_neg (by simpa using hlen)]
        congr 1
        have hz : ∀ y ∈ (daily.map (fun x => x.spend)).map
            (fun x => (x - sMean (daily.map (fun x => x.spend))) ^ 2), y = 0 := by
          intro y hy
          rcases List.mem_map.mp hy with ⟨x, hx, rfl⟩
          rw [hmean, hallc x hx]
          ring
        rw [List.sum_eq_card_nsmul _ 0 hz]
        simp
      constructor
      · rw [anomalies, List.filter_eq_nil_iff]
        intro r hr
        simp only [anomB, hvar, hmean, outUpper, outLower, hconst r hr]
        simp only [Bool.or_eq_true, Bool.and_eq_true, decide_eq_true_eq]
        push_neg
        norm_num
        exact hc
      · rw [spikes, List.filter_eq_nil_iff]
        intro r hr
        simp [spikeB, hvar, hmean, outUpper, hconst r hr]

/-- Witness for C6: the one-day series of non-negative spend 3 yields no
anomalies and no spikes, and the two-day constant series with spend 5
yields none from either detector. -/
theorem claim6_witness :
    exOne.length < 2 ∧ anomalies exOne = [] ∧ spikes exOne = [] ∧
      anomalies exConst2 = [] ∧ spikes exConst2 = [] :=
  ⟨by simp [exOne],
   (claim6_degenerate_series exOne 0).2.1 (by simp [exOne, exDay]) (by simp [exOne]),
   ((claim6_degenerate_series exOne 0).1 (by simp [exOne])).2,
   ((claim6_degenerate_series exConst2 5).2.2 (by simp [exConst2, exDay]) (by norm_num)).1,
   ((claim6_degenerate_series exConst2 5).2.2 (by simp [exConst2, exDay]) (by norm_num)).2⟩

/-- Counterexample for C6 as frozen: (a) the zero-variance two-day series
of constant spend -5 (negative values are retained in computation by
design) is flagged in full by app.py's detector — both days satisfy
`spend < max(0, μ - 2.5·σ) = max(0, -5) = 0`; (b) the single-day series
of spend -7 (fewer than 2 days) is flagged too — the std is NaN and
Python's `max(0, NaN)` is 0, so the day satisfies `spend < 0`.  Both
contradict "the Anomaly Detector emits no anomalies". -/
theorem claim6_counterexample :
    (exNeg2.map (fun r => r.spend) = [-5, -5] ∧ anomalies exNeg2 = exNeg2 ∧ exNeg2 ≠ []) ∧
      (exNeg1.length < 2 ∧ anomalies exNeg1 = exNeg1 ∧ exNeg1 ≠ []) := by
  refine ⟨⟨by simp [exNeg2, exDay], ?_, by simp [exNeg2]⟩,
    ⟨by simp [exNeg1], ?_, by simp [exNeg1]⟩⟩
  · simp [anomalies, anomB, sVar, sMean, outUpper, outLower, exNeg2, exDay, List.filter]
  · simp [anomalies, anomB, sVar, sMean, exNeg1, exDay, List.filter]

/-- Claim C7: every campaign aggregate whose roas compares below the 0.5
threshold yields a pause/review recommendation in the recommendation list
citing that campaign's name, spend and roas; and on the two-campaign
example (A: spend 1000, revenue 400, roas 0.4; B: spend 1000, revenue
600, roas 0.6) the pause recommendations are exactly the one for A. -/
theorem claim7_low_roas_pause (l : List MRow) :
    (∀ a ∈ campaignStats l, pvalLt a.roas (PVal.num (1 / 2)) = true →
        ({ kind := RecKind.pause, subject := a.key, spend := a.spend, roas := a.roas }
          : Recommendation) ∈ recsTest l) ∧
    (recsTest [exCampA, exCampB]).filter (fun rec => rec.kind == RecKind.pause)
      = [{ kind := RecKind.pause, subject := "A", spend := 1000, roas := PVal.num (2 / 5) }] := by
  constructor
  · intro a ha hlt
    rw [recsTest]
    apply List.mem_append_left
    apply List.mem_append_left
    rw [pauseRecs]
    exact List.mem_map.mpr ⟨a, List.mem_filter.mpr ⟨ha, hlt⟩, rfl⟩
  · simp [recsTest, pauseRecs, lowRoas, spikeRecs, scaleRecs, bestCampaign, roasBetter,
      campaignStats, dailySummary, aggregateWith, uniqueKeys, mkAggWith, part, sumOver,
      pvalLt, pdivQ, pdiv, spikes, spikeB, sVar, sMean, outUpper, exCampA, exCampB, List.filter]
    all_goals norm_num
    all_goals decide

/-- Witness for C7: campaign A (roas 0.4 < 0.5) produces its pause
recommendation. -/
theorem claim7_witness :
    exAggA ∈ campaignStats [exCampA, exCampB] ∧
      pvalLt exAggA.roas (PVal.num (1 / 2)) = true ∧
      ({ kind := RecKind.pause, subject := exAggA.key, spend := exAggA.spend,
          roas := exAggA.roas } : Recommendation) ∈ recsTest [exCampA, exCampB] := by
  have hmem : exAggA ∈ campaignStats [exCampA, exCampB] := by
    simp [campaignStats, aggregateWith, uniqueKeys, exAggA, exCampA, exCampB, List.filter]
  have hlt : pvalLt exAggA.roas (PVal.num (1 / 2)) = true := by
    simp [exAggA, mkAggWith, part, sumOver, pdivQ, pdiv, pvalLt, exCampA, exCampB, List.filter]
    norm_num
  exact ⟨hmem, hlt, (claim7_low_roas_pause [exCampA, exCampB]).1 exAggA hmem hlt⟩

/-- Claim C8 (amended): the reallocation candidates are exactly the
campaign aggregates with roas below 0.8 AND spend strictly above 500 —
the code's materiality floor is 500 (src/app.py line 318), not the 100
the claim states — and the reported estimated reallocatable amount is
half of their combined spend. -/
theorem claim8_reallocation (l : List MRow) :
    (∀ a, a ∈ underperforming l ↔
        (a ∈ campaignStats l ∧ pvalLt a.roas (PVal.num (4 / 5)) = true ∧ 500 < a.spend)) ∧
    potentialSavings l = aggSum (fun a => a.spend) (underperforming l) * (1 / 2) ∧
    (∀ a ∈ underperforming l,
        a.spend = sumOver (fun r => r.spend) (part (fun r => r.campaign) l a.key)) := by
  refine ⟨?_, rfl, ?_⟩
  · intro a
    rw [underperforming, List.mem_filter]
    simp [Bool.and_eq_true, decide_eq_true_eq, and_assoc]
  · intro a ha
    have hmem : a ∈ campaignStats l := (List.mem_filter.mp ha).1
    exact (aggregateWith_fields pdivQ (fun r => r.campaign) l a hmem).2.2.1

/-- Witness for C8: campaign D (spend 600 > 500, roas 0.5 < 0.8) is a
reallocation candidate. -/
theorem claim8_witness :
    (exAggD ∈ campaignStats [exCampD] ∧ pvalLt exAggD.roas (PVal.num (4 / 5)) = true ∧
        (500 : ℚ) < exAggD.spend) ∧
      exAggD ∈ underperforming [exCampD] := by
  have hm : exAggD ∈ campaignStats [exCampD] := by
    simp [campaignStats, aggregateWith, uniqueKeys, exAggD, exCampD, List.filter]
  have hl : pvalLt exAggD.roas (PVal.num (4 / 5)) = true := by
    simp [exAggD, mkAggWith, part, sumOver, pdivQ, pdiv, pvalLt, exCampD, List.filter]
    norm_num
  have hs : (500 : ℚ) < exAggD.spend := by
    norm_num [exAggD, mkAggWith, part, sumOver, exCampD, List.filter]
  exact ⟨⟨hm, hl, hs⟩, ((claim8_reallocation [exCampD]).1 exAggD).mpr ⟨hm, hl, hs⟩⟩

/-- Counterexample for C8 as frozen: campaign C has spend 200 — above the
claimed materiality floor of 100 — and roas 0.5 < 0.8, so per the claim
it must be a reallocation candidate; the code's candidate set is
nevertheless empty (200 is not above the hard-coded floor of 500), and
the reported reallocatable amount is 0. -/
theorem claim8_counterexample :
    exAggC ∈ campaignStats [exCampC] ∧
      pvalLt exAggC.roas (PVal.num (4 / 5)) = true ∧
      (100 : ℚ) < exAggC.spend ∧
      underperforming [exCampC] = [] ∧
      potentialSavings [exCampC] = 0 := by
  refine ⟨?_, ?_, ?_, ?_, ?_⟩
  · simp [campaignStats, aggregateWith, uniqueKeys, exAggC, exCampC, List.filter]
  · simp [exAggC, mkAggWith, part, sumOver, pdivQ, pdiv, pvalLt, exCampC, List.filter]
    norm_num
  · norm_num [exAggC, mkAggWith, part, sumOver, exCampC, List.filter]
  · simp [underperforming, campaignStats, aggregateWith, uniqueKeys, mkAggWith, part,
      sumOver, pvalLt, pdivQ, pdiv, exCampC, List.filter]
    norm_num
  · simp [potentialSavings, aggSum, underperforming, campaignStats, aggregateWith, uniqueKeys,
      mkAggWith, part, sumOver, pvalLt, pdivQ, pdiv, exCampC, List.filter]
    norm_num

/-- Claim C9: campaign aggregation partitions by the campaign name alone.
Any two records bearing the same campaign string — regardless of their
channels — fall into the same partition; that partition produces the one
aggregate row keyed by the name, whose spend is the sum over the whole
partition, and no other aggregate row carries that key. -/
theorem claim9_campaign_partition_by_name (l : List MRow) (r1 r2 : MRow)
    (h1 : r1 ∈ l) (h2 : r2 ∈ l) (hc : r1.campaign = r2.campaign) :
    mkAggWith pdivQ (fun r => r.campaign) l r1.campaign ∈ campaignStats l ∧
    r1 ∈ part (fun r => r.campaign) l r1.campaign ∧
    r2 ∈ part (fun r => r.campaign) l r1.campaign ∧
    (mkAggWith pdivQ (fun r => r.campaign) l r1.campaign).spend
      = sumOver (fun r => r.spend) (part (fun r => r.campaign) l r1.campaign) ∧
    (∀ a' ∈ campaignStats l, a'.key = r1.campaign →
        a' = mkAggWith pdivQ (fun r => r.campaign) l r1.campaign) := by
  refine ⟨?_, ?_, ?_, rfl, ?_⟩
  · rw [campaignStats, aggregateWith]
    exact List.mem_map.mpr ⟨r1.campaign,
      (mem_uniqueKeys _ l _).mpr (List.mem_map.mpr ⟨r1, h1, rfl⟩), rfl⟩
  · rw [part, List.mem_filter]
    exact ⟨h1, by simp⟩
  · rw [part, List.mem_filter]
    refine ⟨h2, ?_⟩
    simp only [beq_iff_eq]
    exact hc.symm
  · intro a' ha' hk
    rcases (mem_aggregateWith pdivQ (fun r => r.campaign) l a').mp ha' with ⟨_, ha⟩
    rw [ha, hk]

/-- Witness for C9: campaign "X" on Facebook (spend 30) and on Google
(spend 50) aggregates into a single campaign row with spend 80. -/
theorem claim9_witness :
    exChanF ∈ [exChanF, exChanG] ∧ exChanG ∈ [exChanF, exChanG] ∧
      exChanF.campaign = exChanG.campaign ∧ exChanF.channel ≠ exChanG.channel ∧
      mkAggWith pdivQ (fun r => r.campaign) [exChanF, exChanG] exChanF.campaign
        ∈ campaignStats [exChanF, exChanG] ∧
      (campaignStats [exChanF, exChanG]).length = 1 ∧
      (mkAggWith pdivQ (fun r => r.campaign) [exChanF, exChanG] exChanF.campaign).spend = 80 :=
  ⟨by simp, by simp, rfl, by simp [exChanF, exChanG],
   (claim9_campaign_partition_by_name [exChanF, exChanG] exChanF exChanG (by simp)
     (by simp) rfl).1,
   by simp [campaignStats, aggregateWith, uniqueKeys, exChanF, exChanG],
   by norm_num [mkAggWith, part, sumOver, exChanF, exChanG, List.filter]⟩

/-- Claim C10: after the join, the date-coercion step silently removes
exactly the combined rows whose date does not parse, before any
filtering, KPI computation or display: the cleaned set equals, in order,
the parseable rows; every surviving row has a parsed date; and the KPIs
downstream are computed over only the parseable rows.  Nothing else is
produced — no count of or warning about the dropped rows. -/
theorem claim10_unparseable_rows_silently_dropped
    (parse : String → Option ℕ) (rows : List CRow) :
    combinedClean parse rows
      = (rows.filter (fun r => (parse r.date).isSome)).map
          (fun r => { pdate := parse r.date, row := r }) ∧
    (∀ p ∈ combinedClean parse rows, p.pdate.isSome) ∧
    (combinedClean parse rows).map (fun p => p.row)
      = rows.filter (fun r => (parse r.date).isSome) ∧
    totalSpendKpi ((combinedClean parse rows).map (fun p => p.row))
      = totalSpendKpi (rows.filter (fun r => (parse r.date).isSome)) := by
  have h1 : combinedClean parse rows
      = (rows.filter (fun r => (parse r.date).isSome)).map
          (fun r => { pdate := parse r.date, row := r }) := by
    rw [combinedClean, dropUnparsed, coerceDates]
    exact List.filter_map _ _
  have h2 : (combinedClean parse rows).map (fun p => p.row)
      = rows.filter (fun r => (parse r.date).isSome) := by
    rw [h1, List.map_map]
    have : ((fun p => p.row) ∘ (fun r => ({ pdate := parse r.date, row := r } : PRow))) = id := rfl
    rw [this, List.map_id]
  refine ⟨h1, ?_, h2, by rw [h2]⟩
  · intro p hp
    rw [h1] at hp
    rcases List.mem_map.mp hp with ⟨r, hr, rfl⟩
    have := (List.mem_filter.mp hr).2
    simpa using this

end MI
